import Mathlib

/-!
Verification of the max-algos trading pipeline (src/ema_signals.py and
src/macd_strategy.py) against its natural-language specification.

The Python code is shallowly embedded: prices are exact rationals (`ℚ`),
pandas columns become `List`s, `pd.NA` cells become `Option`, the in-place
row loop of `MACDStrategy.simulate_trades` becomes explicit state passing
(`SimState` / `stepSim` / `simAux`), and Python's `round(x, 5)`
(round-half-to-even at the fifth decimal) becomes `rnd5`.
-/

/- Core marks the kernel-reducible `Rat` arithmetic operations
`[irreducible]`, which blocks `decide`/`rfl` evaluation of concrete
rational scenarios; restore the default reducibility for them. -/
attribute [local semireducible] Rat.mul Rat.add Rat.sub Rat.inv

namespace MaxAlgos

/-- Direction of a raw EMA signal / position: the strings `'long'` / `'short'`
in the Python code. -/
inductive Direction where
  | long
  | short
  deriving DecidableEq

/-- Exit reason recorded by `simulate_trades`: the strings `'ema_cross'`
(spec name: CrossReversal) and `'macd'` (spec name: MomentumFlip). -/
inductive ExitType where
  | ema_cross
  | macd
  deriving DecidableEq

/-- Per-bar input consumed by `simulate_trades`: the `Close` cell, the raw
EMA-signal cell (`pd.NA` → `none`), and the `MACD_hist` cell. -/
structure BarIn where
  close : ℚ
  raw : Option Direction
  hist : ℚ
  deriving DecidableEq

/-- Per-bar output columns written by `simulate_trades`
(`entry_signal`, `exit_signal`, `in_position`, `profit`, `exit_type`,
`trade_id`); every column is initialized to `pd.NA` / `False`. The Python
`exit_signal` string `f"exit_{position}"` is represented by the direction
`position` it is tagged with. -/
structure Row where
  entry_signal : Option Direction := none
  exit_signal : Option Direction := none
  in_position : Bool := false
  profit : Option ℚ := none
  exit_type : Option ExitType := none
  trade_id : Option ℕ := none
  deriving DecidableEq

/-- The loop-local scan state of `simulate_trades`:
`in_trade`, `position`, `entry_price`, `trade_counter`. Python initializes
`position = None` and `entry_price = None`; `entry_price` is only ever read
while `in_trade`, by which point it has been set, so it is carried as a
plain rational seeded with 0. -/
structure SimState where
  in_trade : Bool
  position : Option Direction
  entry_price : ℚ
  trade_counter : ℕ
  deriving DecidableEq

/-- Initial scan state: `trade_counter = 0`, `in_trade = False`,
`position = None`. -/
def initState : SimState := ⟨false, none, 0, 0⟩

/-- Python line `(position=='long' and hist<0) or (position=='short' and hist>0)`. -/
def adverse (pos : Option Direction) (hist : ℚ) : Bool :=
  decide ((pos = some Direction.long ∧ hist < 0) ∨ (pos = some Direction.short ∧ 0 < hist))

/-- Python line `(close - entry_price) if position=='long' else (entry_price - close)`. -/
def pdelta (pos : Option Direction) (close entry : ℚ) : ℚ :=
  if pos = some Direction.long then close - entry else entry - close

/-- Round a rational to the nearest integer, ties to the even integer:
the rounding rule of Python's builtin `round`. -/
def roundHalfEven (q : ℚ) : ℤ :=
  if q - ⌊q⌋ < 1 / 2 then ⌊q⌋
  else if 1 / 2 < q - ⌊q⌋ then ⌊q⌋ + 1
  else if ⌊q⌋ % 2 = 0 then ⌊q⌋ else ⌊q⌋ + 1

/-- Python `round(x, 5)`: round-half-to-even at the fifth decimal place. -/
def rnd5 (q : ℚ) : ℚ :=
  (roundHalfEven (q * 100000) : ℚ) / 100000

/-- One iteration of the `for idx in df.index` loop of
`MACDStrategy.simulate_trades`, returning the updated scan state and the
row written at this index.  Branches, in source order:
entry (flat and raw signal present, then `continue`), forced exit on
opposite raw EMA signal, MACD histogram exit, in-trade no-exit, flat no-op. -/
def stepSim (pip : ℚ) (st : SimState) (b : BarIn) : SimState × Row :=
  if st.in_trade = false ∧ b.raw.isSome = true then
    (⟨true, b.raw, b.close, st.trade_counter + 1⟩,
     { entry_signal := b.raw, in_position := true,
       trade_id := some (st.trade_counter + 1) })
  else if st.in_trade = true then
    if b.raw.isSome = true ∧ b.raw ≠ st.position then
      ({ st with in_trade := false },
       { exit_signal := st.position, in_position := true,
         profit := some (rnd5 (pdelta st.position b.close st.entry_price / pip)),
         exit_type := some ExitType.ema_cross,
         trade_id := some st.trade_counter })
    else if adverse st.position b.hist = true then
      ({ st with in_trade := false },
       { exit_signal := st.position, in_position := true,
         profit := some (rnd5 (pdelta st.position b.close st.entry_price / pip)),
         exit_type := some ExitType.macd,
         trade_id := some st.trade_counter })
    else
      (st, { in_position := true, trade_id := some st.trade_counter })
  else
    (st, {})

/-- The whole row loop of `simulate_trades`, run from an arbitrary scan
state, producing one `Row` per input bar. -/
def simAux (pip : ℚ) : SimState → List BarIn → List Row
  | _, [] => []
  | st, b :: rest =>
      let out := stepSim pip st b
      out.2 :: simAux pip out.1 rest

/-- First cleanup assignment (line 121 of macd_strategy.py, later
overwritten): `in_position = trade_id.notna() & exit_signal.isna()`. -/
def in_position_pass1 (r : Row) : Bool :=
  r.trade_id.isSome && !r.exit_signal.isSome

/-- Second, final cleanup assignment (line 123 of macd_strategy.py):
`in_position = trade_id.notna() & exit_signal.isna() | exit_signal.notna()`. -/
def final_in_position (r : Row) : Bool :=
  (r.trade_id.isSome && !r.exit_signal.isSome) || r.exit_signal.isSome

/-- `MACDStrategy.simulate_trades`: the row loop from the initial state,
followed by the two whole-column `in_position` cleanup assignments (the
second one overwrites the first). -/
def simulate_trades (pip : ℚ) (bars : List BarIn) : List Row :=
  let rows := simAux pip initState bars
  let rows1 := rows.map fun r => { r with in_position := in_position_pass1 r }
  rows1.map fun r => { r with in_position := final_in_position r }

/-- Tail of the recursive exponential smoother: given the previous smoothed
value, emit `v = c*a + prev*(1-a)` for each remaining input `c`. -/
def ewmAux (a : ℚ) : ℚ → List ℚ → List ℚ
  | _, [] => []
  | prev, c :: rest =>
      (c * a + prev * (1 - a)) :: ewmAux a (c * a + prev * (1 - a)) rest

/-- pandas `Series.ewm(span, adjust=False).mean()` with `a = 2/(span+1)`:
seeded with the first input value, then the recursive smoother. -/
def ewm (a : ℚ) : List ℚ → List ℚ
  | [] => []
  | c :: rest => c :: ewmAux a c rest

/-- `EMASignal.calculate_ema`: pandas `ewm(span=period, adjust=False)` with
smoothing factor `2/(period+1)`. pandas raises
`ValueError: span must satisfy: span >= 1` when the span is below 1; an
empty input series is not rejected and yields an empty output. -/
def calculate_ema (period : ℤ) (closes : List ℚ) : Except String (List ℚ) :=
  if period < 1 then Except.error "span must satisfy: span >= 1"
  else Except.ok (ewm (2 / ((period : ℚ) + 1)) closes)

/-- One cell of `EMASignal.generate_signals`:
`cross_above = (close > ema) & (prev_close <= prev_ema)` sets `'long'`,
`cross_below = (close < ema) & (prev_close >= prev_ema)` sets `'short'`,
otherwise the cell stays `pd.NA`. -/
def crossSignal (c t pc pt : ℚ) : Option Direction :=
  if t < c ∧ pc ≤ pt then some Direction.long
  else if c < t ∧ pt ≤ pc then some Direction.short
  else none

/-- Signal cells from index 1 on: each cell compares the current
(close, ema) pair against the previous pair, as the pandas `shift(1)`
comparison does. -/
def signalsAux : ℚ × ℚ → List (ℚ × ℚ) → List (Option Direction)
  | _, [] => []
  | prev, p :: rest => crossSignal p.1 p.2 prev.1 prev.2 :: signalsAux p rest

/-- `EMASignal.generate_signals` on the zipped (Close, EMA) series: the
first cell is always `pd.NA` because `shift(1)` leaves no previous row to
compare against (NaN comparisons are false). -/
def generate_signals : List (ℚ × ℚ) → List (Option Direction)
  | [] => []
  | p :: rest => none :: signalsAux p rest

/-- Elementwise difference of two pandas series. -/
def listSub (xs ys : List ℚ) : List ℚ :=
  List.zipWith (fun x y => x - y) xs ys

/-- `MACDStrategy.calculate_macd`: fast and slow `ewm` of Close, their
difference (`MACD`), its `ewm` (`MACD_signal`), and the difference of the
two (`MACD_hist`). Each `ewm` span below 1 raises in pandas. -/
def calculate_macd (f s g : ℤ) (closes : List ℚ) :
    Except String (List ℚ × List ℚ × List ℚ) :=
  if f < 1 ∨ s < 1 ∨ g < 1 then Except.error "span must satisfy: span >= 1"
  else
    let fast_ema := ewm (2 / ((f : ℚ) + 1)) closes
    let slow_ema := ewm (2 / ((s : ℚ) + 1)) closes
    let macd := listSub fast_ema slow_ema
    let sig := ewm (2 / ((g : ℚ) + 1)) macd
    let hist := listSub macd sig
    Except.ok (macd, sig, hist)

/-- Zip the three per-bar input columns of the simulator. -/
def mkBars : List ℚ → List (Option Direction) → List ℚ → List BarIn
  | c :: cs, r :: rs, h :: hs => ⟨c, r, h⟩ :: mkBars cs rs hs
  | _, _, _ => []

/-- The whole pipeline as wired by the repository's entry point:
trend EMA and crossover signals (`process_ema_signals`), MACD series
(`calculate_macd`), then `simulate_trades` over the Close / raw-signal /
histogram columns. -/
def run_pipeline (trendP f s g : ℤ) (pip : ℚ) (closes : List ℚ) :
    Except String (List Row) :=
  match calculate_ema trendP closes with
  | Except.error e => Except.error e
  | Except.ok trend =>
    let raws := generate_signals (closes.zip trend)
    match calculate_macd f s g closes with
    | Except.error e => Except.error e
    | Except.ok (_, _, hist) =>
      Except.ok (simulate_trades pip (mkBars closes raws hist))

/-- The trade ids carried by entry rows, in bar order. -/
def entryIds (rows : List Row) : List ℕ :=
  rows.filterMap fun r => if r.entry_signal.isSome then r.trade_id else none

/-- Spec-side predicate (spec §4.1 / §8, stated from the spec's words, to be
compared against the code's `ewm`): `ys` is the seeded recursive smoother of
`xs` with factor `a`, i.e. `ys[0] = xs[0]` and
`ys[i] = xs[i]*a + ys[i-1]*(1-a)` for `i ≥ 1`. -/
def specSmoothRec (a : ℚ) (xs ys : List ℚ) : Prop :=
  ys.length = xs.length ∧
  (∀ (hy : 0 < ys.length) (hx : 0 < xs.length),
      ys.get ⟨0, hy⟩ = xs.get ⟨0, hx⟩) ∧
  ∀ i (hy : i + 1 < ys.length) (hx : i + 1 < xs.length) (hy2 : i < ys.length),
      ys.get ⟨i + 1, hy⟩ = xs.get ⟨i + 1, hx⟩ * a + ys.get ⟨i, hy2⟩ * (1 - a)

/-! ## Step-level case analysis of the simulator -/

/-- Exhaustive case analysis of one loop iteration of `simulate_trades`:
entry, flat no-op, forced exit on opposite raw signal, MACD exit, or
in-trade no-exit, each with the exact state and row it produces. -/
lemma stepSim_cases (pip : ℚ) (st : SimState) (b : BarIn) :
    (st.in_trade = false ∧ b.raw.isSome = true ∧
      stepSim pip st b = (⟨true, b.raw, b.close, st.trade_counter + 1⟩,
        { entry_signal := b.raw, in_position := true,
          trade_id := some (st.trade_counter + 1) }))
    ∨ (st.in_trade = false ∧ b.raw.isSome = false ∧ stepSim pip st b = (st, {}))
    ∨ (st.in_trade = true ∧ (b.raw.isSome = true ∧ b.raw ≠ st.position) ∧
      stepSim pip st b = ({ st with in_trade := false },
        { exit_signal := st.position, in_position := true,
          profit := some (rnd5 (pdelta st.position b.close st.entry_price / pip)),
          exit_type := some ExitType.ema_cross, trade_id := some st.trade_counter }))
    ∨ (st.in_trade = true ∧ ¬(b.raw.isSome = true ∧ b.raw ≠ st.position) ∧
      adverse st.position b.hist = true ∧
      stepSim pip st b = ({ st with in_trade := false },
        { exit_signal := st.position, in_position := true,
          profit := some (rnd5 (pdelta st.position b.close st.entry_price / pip)),
          exit_type := some ExitType.macd, trade_id := some st.trade_counter }))
    ∨ (st.in_trade = true ∧ ¬(b.raw.isSome = true ∧ b.raw ≠ st.position) ∧
      adverse st.position b.hist = false ∧
      stepSim pip st b = (st, { in_position := true, trade_id := some st.trade_counter })) := by
  by_cases h1 : st.in_trade = false ∧ b.raw.isSome = true
  · exact Or.inl ⟨h1.1, h1.2, by rw [stepSim, if_pos h1]⟩
  · by_cases h2 : st.in_trade = true
    · by_cases h3 : b.raw.isSome = true ∧ b.raw ≠ st.position
      · refine Or.inr (Or.inr (Or.inl ⟨h2, h3, ?_⟩))
        rw [stepSim, if_neg h1, if_pos h2, if_pos h3]
      · by_cases h4 : adverse st.position b.hist = true
        · refine Or.inr (Or.inr (Or.inr (Or.inl ⟨h2, h3, h4, ?_⟩)))
          rw [stepSim, if_neg h1, if_pos h2, if_neg h3, if_pos h4]
        · refine Or.inr (Or.inr (Or.inr (Or.inr ⟨h2, h3, Bool.not_eq_true _ ▸ h4, ?_⟩)))
          rw [stepSim, if_neg h1, if_pos h2, if_neg h3, if_neg h4]
    · have hf : st.in_trade = false := by
        cases hb : st.in_trade
        · rfl
        · exact absurd hb h2
      have hr : b.raw.isSome = false := by
        cases hb : b.raw.isSome
        · rfl
        · exact absurd ⟨hf, hb⟩ h1
      refine Or.inr (Or.inl ⟨hf, hr, ?_⟩)
      rw [stepSim, if_neg h1, if_neg (by simp [hf])]

/-- The scan state's trade counter never decreases across a step. -/
lemma step_counter_le (pip : ℚ) (st : SimState) (b : BarIn) :
    st.trade_counter ≤ (stepSim pip st b).1.trade_counter := by
  rcases stepSim_cases pip st b with ⟨_, _, h⟩ | ⟨_, _, h⟩ | ⟨_, _, h⟩ | ⟨_, _, _, h⟩ |
    ⟨_, _, _, h⟩ <;> rw [h] <;> simp

lemma simAux_cons (pip : ℚ) (st : SimState) (b : BarIn) (rest : List BarIn) :
    simAux pip st (b :: rest) =
      (stepSim pip st b).2 :: simAux pip (stepSim pip st b).1 rest := rfl

lemma simAux_length (pip : ℚ) :
    ∀ (bars : List BarIn) (st : SimState), (simAux pip st bars).length = bars.length
  | [], _ => rfl
  | b :: rest, st => by
      rw [simAux_cons]
      simp [simAux_length pip rest]

/-- Every row produced by the loop is the output row of some step. -/
lemma simAux_mem (pip : ℚ) :
    ∀ (bars : List BarIn) (st : SimState) (r : Row), r ∈ simAux pip st bars →
      ∃ st2 b, r = (stepSim pip st2 b).2
  | [], _, _, h => by simp [simAux] at h
  | b :: rest, st, r, h => by
      rw [simAux_cons] at h
      rcases List.mem_cons.mp h with h | h
      · exact ⟨st, b, h⟩
      · exact simAux_mem pip rest _ r h

/-- The two cleanup passes only rewrite `in_position`; composed, they
replace it with `final_in_position` of the loop's row. -/
lemma simulate_trades_eq_map (pip : ℚ) (bars : List BarIn) :
    simulate_trades pip bars =
      (simAux pip initState bars).map
        fun r => { r with in_position := final_in_position r } := by
  rw [simulate_trades, List.map_map]
  rfl

lemma simulate_trades_length (pip : ℚ) (bars : List BarIn) :
    (simulate_trades pip bars).length = bars.length := by
  rw [simulate_trades_eq_map, List.length_map, simAux_length]

/-- Rows of `simulate_trades` are the loop rows with `in_position`
recomputed; all other columns are untouched by the cleanup passes. -/
lemma simulate_trades_get (pip : ℚ) (bars : List BarIn) (i : ℕ)
    (h : i < (simulate_trades pip bars).length)
    (h2 : i < (simAux pip initState bars).length) :
    (simulate_trades pip bars).get ⟨i, h⟩ =
      { (simAux pip initState bars).get ⟨i, h2⟩ with
        in_position :=
          final_in_position ((simAux pip initState bars).get ⟨i, h2⟩) } := by
  have hmap := simulate_trades_eq_map pip bars
  rw [List.get_of_eq hmap ⟨i, h⟩, List.get_map]

/-! ## Trace invariants of the simulator -/

/-- Lower bound on recorded trade ids: every id the loop writes from state
`st` is at least `st.trade_counter`, and strictly above it when the loop
starts flat. -/
lemma simAux_tid_lb (pip : ℚ) :
    ∀ (bars : List BarIn) (st : SimState) (r : Row) (k : ℕ),
      r ∈ simAux pip st bars → r.trade_id = some k →
      st.trade_counter ≤ k ∧ (st.in_trade = false → st.trade_counter + 1 ≤ k)
  | [], st, r, k, hmem, _ => by simp [simAux] at hmem
  | b :: rest, st, r, k, hmem, htid => by
      rw [simAux_cons] at hmem
      rcases List.mem_cons.mp hmem with hr | hr
      · rcases stepSim_cases pip st b with ⟨h1, h2, heq⟩ | ⟨h1, h2, heq⟩ | ⟨h1, h2, heq⟩ |
          ⟨h1, h2, h3, heq⟩ | ⟨h1, h2, h3, heq⟩ <;>
          rw [heq] at hr <;> subst hr <;> simp_all <;> omega
      · rcases stepSim_cases pip st b with ⟨h1, h2, heq⟩ | ⟨h1, h2, heq⟩ | ⟨h1, h2, heq⟩ |
          ⟨h1, h2, h3, heq⟩ | ⟨h1, h2, h3, heq⟩ <;> rw [heq] at hr <;>
          have IH := simAux_tid_lb pip rest _ r k hr htid <;> simp_all <;> omega

/-- Every entry row written from state `st` carries an id strictly above
`st.trade_counter`. -/
lemma simAux_entry_tid_lb (pip : ℚ) :
    ∀ (bars : List BarIn) (st : SimState) (r : Row) (k : ℕ),
      r ∈ simAux pip st bars → r.entry_signal.isSome = true →
      r.trade_id = some k → st.trade_counter + 1 ≤ k
  | [], st, r, k, hmem, _, _ => by simp [simAux] at hmem
  | b :: rest, st, r, k, hmem, hent, htid => by
      rw [simAux_cons] at hmem
      rcases List.mem_cons.mp hmem with hr | hr
      · rcases stepSim_cases pip st b with ⟨h1, h2, heq⟩ | ⟨h1, h2, heq⟩ | ⟨h1, h2, heq⟩ |
          ⟨h1, h2, h3, heq⟩ | ⟨h1, h2, h3, heq⟩ <;>
          rw [heq] at hr <;> subst hr <;> simp_all
      · rcases stepSim_cases pip st b with ⟨h1, h2, heq⟩ | ⟨h1, h2, heq⟩ | ⟨h1, h2, heq⟩ |
          ⟨h1, h2, h3, heq⟩ | ⟨h1, h2, h3, heq⟩ <;> rw [heq] at hr <;>
          have IH := simAux_entry_tid_lb pip rest _ r k hr hent htid <;>
          simp_all <;> omega

lemma simAux_get_zero (pip : ℚ) (st : SimState) (b : BarIn) (rest : List BarIn)
    (h : 0 < (simAux pip st (b :: rest)).length) :
    (simAux pip st (b :: rest)).get ⟨0, h⟩ = (stepSim pip st b).2 := rfl

lemma simAux_get_succ (pip : ℚ) (st : SimState) (b : BarIn) (rest : List BarIn)
    (i : ℕ) (h : i + 1 < (simAux pip st (b :: rest)).length) :
    (simAux pip st (b :: rest)).get ⟨i + 1, h⟩ =
      (simAux pip (stepSim pip st b).1 rest).get
        ⟨i, by rw [simAux_length] at h ⊢; simpa using Nat.lt_of_succ_lt_succ h⟩ := rfl

/-- Trade ids recorded along the trace never decrease with the bar index. -/
lemma simAux_tid_mono (pip : ℚ) :
    ∀ (bars : List BarIn) (st : SimState) (i j a c : ℕ)
      (hi : i < (simAux pip st bars).length) (hj : j < (simAux pip st bars).length),
      i ≤ j →
      ((simAux pip st bars).get ⟨i, hi⟩).trade_id = some a →
      ((simAux pip st bars).get ⟨j, hj⟩).trade_id = some c → a ≤ c
  | [], _, _, _, _, _, hi, _, _, _, _ => by simp [simAux] at hi
  | b :: rest, st, 0, 0, a, c, hi, hj, _, hta, htc => by
      rw [simAux_get_zero] at hta htc
      rw [hta] at htc
      simp only [Option.some.injEq] at htc
      omega
  | b :: rest, st, 0, j + 1, a, c, hi, hj, _, hta, htc => by
      rw [simAux_get_zero] at hta
      rw [simAux_get_succ] at htc
      have hlb := simAux_tid_lb pip rest _ _ c (List.get_mem _ _ _) htc
      rcases stepSim_cases pip st b with ⟨h1, h2, heq⟩ | ⟨h1, h2, heq⟩ | ⟨h1, h2, heq⟩ |
        ⟨h1, h2, h3, heq⟩ | ⟨h1, h2, h3, heq⟩ <;> rw [heq] at hta hlb <;> simp_all <;> omega
  | b :: rest, st, i + 1, j + 1, a, c, hi, hj, hij, hta, htc => by
      rw [simAux_get_succ] at hta htc
      exact simAux_tid_mono pip rest _ i j a c _ _ (Nat.le_of_succ_le_succ hij) hta htc
  | b :: rest, st, i + 1, 0, a, c, hi, hj, hij, hta, htc => by omega

/-- Transport a bound on a cons trace to the tail trace (run from any state). -/
lemma simAux_tail_lt (pip : ℚ) (st st2 : SimState) (b : BarIn) (rest : List BarIn)
    (m : ℕ) (h : m + 1 < (simAux pip st (b :: rest)).length) :
    m < (simAux pip st2 rest).length := by
  rw [simAux_length] at h ⊢
  simpa using Nat.lt_of_succ_lt_succ h

/-- If the loop starts inside a trade, the bars still carrying that trade's
id form a prefix of the trace: anything at or before such a bar carries the
same id. -/
lemma simAux_tid_block (pip : ℚ) :
    ∀ (bars : List BarIn) (st : SimState), st.in_trade = true →
      ∀ (i : ℕ) (hi : i < (simAux pip st bars).length),
        ((simAux pip st bars).get ⟨i, hi⟩).trade_id = some st.trade_counter →
      ∀ (m : ℕ) (hm : m < (simAux pip st bars).length), m ≤ i →
        ((simAux pip st bars).get ⟨m, hm⟩).trade_id = some st.trade_counter
  | [], st, _, i, hi, _, m, hm, _ => by simp [simAux] at hi
  | b :: rest, st, htr, i, hi, hti, m, hm, hmi => by
      rcases stepSim_cases pip st b with ⟨h1, h2, heq⟩ | ⟨h1, h2, heq⟩ | ⟨h1, h2, heq⟩ |
        ⟨h1, h2, h3, heq⟩ | ⟨h1, h2, h3, heq⟩
      · rw [h1] at htr; exact absurd htr (by simp)
      · rw [h1] at htr; exact absurd htr (by simp)
      · cases m with
        | zero => rw [simAux_get_zero, heq]
        | succ m =>
            cases i with
            | zero => omega
            | succ i =>
                rw [simAux_get_succ] at hti
                have hlb := simAux_tid_lb pip rest _ _ _ (List.get_mem _ _ _) hti
                rw [heq] at hlb
                simp at hlb
      · cases m with
        | zero => rw [simAux_get_zero, heq]
        | succ m =>
            cases i with
            | zero => omega
            | succ i =>
                rw [simAux_get_succ] at hti
                have hlb := simAux_tid_lb pip rest _ _ _ (List.get_mem _ _ _) hti
                rw [heq] at hlb
                simp at hlb
      · cases m with
        | zero => rw [simAux_get_zero, heq]
        | succ m =>
            cases i with
            | zero => omega
            | succ i =>
                rw [simAux_get_succ] at hti ⊢
                rw [heq] at hti ⊢
                exact simAux_tid_block pip rest st htr i _ hti m _
                  (Nat.le_of_succ_le_succ hmi)

/-- The set of bars carrying a given trade id is contiguous: any bar
between two bars of the same trade also carries that trade's id. -/
lemma simAux_tid_interval (pip : ℚ) :
    ∀ (bars : List BarIn) (st : SimState) (i m j k : ℕ)
      (hi : i < (simAux pip st bars).length) (hm : m < (simAux pip st bars).length)
      (hj : j < (simAux pip st bars).length),
      i ≤ m → m ≤ j →
      ((simAux pip st bars).get ⟨i, hi⟩).trade_id = some k →
      ((simAux pip st bars).get ⟨j, hj⟩).trade_id = some k →
      ((simAux pip st bars).get ⟨m, hm⟩).trade_id = some k
  | [], st, i, m, j, k, hi, _, _, _, _, _, _ => by simp [simAux] at hi
  | b :: rest, st, i + 1, m, j, k, hi, hm, hj, him, hmj, hti, htj => by
      cases m with
      | zero => omega
      | succ m =>
          cases j with
          | zero => omega
          | succ j =>
              rw [simAux_get_succ] at hti htj ⊢
              exact simAux_tid_interval pip rest _ i m j k _ _ _
                (Nat.le_of_succ_le_succ him) (Nat.le_of_succ_le_succ hmj) hti htj
  | b :: rest, st, 0, 0, j, k, hi, hm, hj, him, hmj, hti, htj => hti
  | b :: rest, st, 0, m + 1, j, k, hi, hm, hj, him, hmj, hti, htj => by
      cases j with
      | zero => omega
      | succ j =>
          rw [simAux_get_zero] at hti
          rw [simAux_get_succ] at htj ⊢
          rcases stepSim_cases pip st b with ⟨h1, h2, heq⟩ | ⟨h1, h2, heq⟩ | ⟨h1, h2, heq⟩ |
            ⟨h1, h2, h3, heq⟩ | ⟨h1, h2, h3, heq⟩
          · -- entry: the tail continues trade st.trade_counter + 1 = k
            rw [heq] at hti htj ⊢
            simp only [Option.some.injEq] at hti
            subst hti
            exact simAux_tid_block pip rest
              ⟨true, b.raw, b.close, st.trade_counter + 1⟩ rfl j
              (simAux_tail_lt pip st _ b rest j hj) htj m
              (simAux_tail_lt pip st _ b rest m hm) (Nat.le_of_succ_le_succ hmj)
          · rw [heq] at hti; exact absurd hti (by simp)
          · -- cross exit at bar 0: the tail can never mention id k again
            rw [heq] at hti htj
            simp only [Option.some.injEq] at hti
            have hlb := simAux_tid_lb pip rest _ _ _ (List.get_mem _ _ _) htj
            simp at hlb
            omega
          · rw [heq] at hti htj
            simp only [Option.some.injEq] at hti
            have hlb := simAux_tid_lb pip rest _ _ _ (List.get_mem _ _ _) htj
            simp at hlb
            omega
          · -- in-trade, no exit: the trade block continues
            rw [heq] at hti htj ⊢
            simp only [Option.some.injEq] at hti
            subst hti
            exact simAux_tid_block pip rest st h1 j
              (simAux_tail_lt pip st st b rest j hj) htj m
              (simAux_tail_lt pip st st b rest m hm) (Nat.le_of_succ_le_succ hmj)

lemma entryIds_cons_entry (r : Row) (rows : List Row) (k : ℕ)
    (h1 : r.entry_signal.isSome = true) (h2 : r.trade_id = some k) :
    entryIds (r :: rows) = k :: entryIds rows := by
  simp [entryIds, h1, h2]

lemma entryIds_cons_skip (r : Row) (rows : List Row) (h : r.entry_signal = none) :
    entryIds (r :: rows) = entryIds rows := by
  simp [entryIds, h]

/-- The ids carried by entry rows, in bar order, are consecutive integers
starting right above the initial trade counter. -/
lemma simAux_entryIds (pip : ℚ) :
    ∀ (bars : List BarIn) (st : SimState),
      ∃ n, entryIds (simAux pip st bars) = List.range' (st.trade_counter + 1) n
  | [], st => ⟨0, by simp [simAux, entryIds]⟩
  | b :: rest, st => by
      rw [simAux_cons]
      rcases stepSim_cases pip st b with ⟨h1, h2, heq⟩ | ⟨h1, h2, heq⟩ | ⟨h1, h2, heq⟩ |
        ⟨h1, h2, h3, heq⟩ | ⟨h1, h2, h3, heq⟩ <;> rw [heq] <;> dsimp only
      · obtain ⟨n, hn⟩ := simAux_entryIds pip rest
          ⟨true, b.raw, b.close, st.trade_counter + 1⟩
        refine ⟨n + 1, ?_⟩
        rw [entryIds_cons_entry _ _ (st.trade_counter + 1) h2 rfl, List.range'_succ]
        exact congrArg _ hn
      · obtain ⟨n, hn⟩ := simAux_entryIds pip rest st
        exact ⟨n, by rw [entryIds_cons_skip _ _ rfl]; exact hn⟩
      · obtain ⟨n, hn⟩ := simAux_entryIds pip rest { st with in_trade := false }
        exact ⟨n, by rw [entryIds_cons_skip _ _ rfl]; exact hn⟩
      · obtain ⟨n, hn⟩ := simAux_entryIds pip rest { st with in_trade := false }
        exact ⟨n, by rw [entryIds_cons_skip _ _ rfl]; exact hn⟩
      · obtain ⟨n, hn⟩ := simAux_entryIds pip rest st
        exact ⟨n, by rw [entryIds_cons_skip _ _ rfl]; exact hn⟩

/-- A trade's entry bar strictly precedes its exit bar: the loop never
records an entry and the exit of the same trade on the same bar, and the
exit of trade `k` can only come after its entry. -/
lemma simAux_entry_lt_exit (pip : ℚ) :
    ∀ (bars : List BarIn) (st : SimState) (i j k : ℕ)
      (hi : i < (simAux pip st bars).length) (hj : j < (simAux pip st bars).length),
      ((simAux pip st bars).get ⟨i, hi⟩).entry_signal.isSome = true →
      ((simAux pip st bars).get ⟨i, hi⟩).trade_id = some k →
      ((simAux pip st bars).get ⟨j, hj⟩).exit_signal.isSome = true →
      ((simAux pip st bars).get ⟨j, hj⟩).trade_id = some k →
      i < j
  | [], st, i, j, k, hi, hj, _, _, _, _ => by simp [simAux] at hi
  | b :: rest, st, 0, j + 1, k, hi, hj, _, _, _, _ => Nat.succ_pos j
  | b :: rest, st, 0, 0, k, hi, hj, hei, hti, hxj, htj => by
      rw [simAux_get_zero] at hei hxj
      rcases stepSim_cases pip st b with ⟨h1, h2, heq⟩ | ⟨h1, h2, heq⟩ | ⟨h1, h2, heq⟩ |
        ⟨h1, h2, h3, heq⟩ | ⟨h1, h2, h3, heq⟩ <;> rw [heq] at hei hxj <;> simp_all
  | b :: rest, st, i + 1, 0, k, hi, hj, hei, hti, hxj, htj => by
      rw [simAux_get_zero] at hxj htj
      rw [simAux_get_succ] at hei hti
      rcases stepSim_cases pip st b with ⟨h1, h2, heq⟩ | ⟨h1, h2, heq⟩ | ⟨h1, h2, heq⟩ |
        ⟨h1, h2, h3, heq⟩ | ⟨h1, h2, h3, heq⟩ <;> rw [heq] at hxj htj hei hti
      · simp at hxj
      · simp at hxj
      · have hlb := simAux_entry_tid_lb pip rest _ _ k (List.get_mem _ _ _) hei hti
        simp at hlb htj
        omega
      · have hlb := simAux_entry_tid_lb pip rest _ _ k (List.get_mem _ _ _) hei hti
        simp at hlb htj
        omega
      · simp at hxj
  | b :: rest, st, i + 1, j + 1, k, hi, hj, hei, hti, hxj, htj => by
      rw [simAux_get_succ] at hei hti hxj htj
      exact Nat.succ_lt_succ
        (simAux_entry_lt_exit pip rest _ i j k _ _ hei hti hxj htj)

/-- While the trade the loop starts inside is still the one being tracked,
its exit bar records the direction of that trade and the profit computed
from the trade's entry price and the exit bar's Close. -/
lemma simAux_exit_of_open (pip : ℚ) :
    ∀ (bars : List BarIn) (st : SimState), st.in_trade = true →
      ∀ (j : ℕ) (hj : j < (simAux pip st bars).length) (hbj : j < bars.length),
        ((simAux pip st bars).get ⟨j, hj⟩).exit_signal.isSome = true →
        ((simAux pip st bars).get ⟨j, hj⟩).trade_id = some st.trade_counter →
        ((simAux pip st bars).get ⟨j, hj⟩).exit_signal = st.position ∧
        ((simAux pip st bars).get ⟨j, hj⟩).profit =
          some (rnd5 (pdelta st.position (bars.get ⟨j, hbj⟩).close st.entry_price / pip))
  | [], st, _, j, hj, _, _, _ => by simp [simAux] at hj
  | b :: rest, st, htr, j, hj, hbj, hxj, htj => by
      rcases stepSim_cases pip st b with ⟨h1, h2, heq⟩ | ⟨h1, h2, heq⟩ | ⟨h1, h2, heq⟩ |
        ⟨h1, h2, h3, heq⟩ | ⟨h1, h2, h3, heq⟩
      · rw [h1] at htr; exact absurd htr (by simp)
      · rw [h1] at htr; exact absurd htr (by simp)
      · cases j with
        | zero =>
            rw [simAux_get_zero] at hxj ⊢
            rw [heq]
            exact ⟨rfl, rfl⟩
        | succ j =>
            rw [simAux_get_succ] at htj
            have hlb := simAux_tid_lb pip rest _ _ _ (List.get_mem _ _ _) htj
            rw [heq] at hlb
            simp at hlb
      · cases j with
        | zero =>
            rw [simAux_get_zero] at hxj ⊢
            rw [heq]
            exact ⟨rfl, rfl⟩
        | succ j =>
            rw [simAux_get_succ] at htj
            have hlb := simAux_tid_lb pip rest _ _ _ (List.get_mem _ _ _) htj
            rw [heq] at hlb
            simp at hlb
      · cases j with
        | zero =>
            rw [simAux_get_zero] at hxj
            rw [heq] at hxj
            simp at hxj
        | succ j =>
            rw [simAux_get_succ] at hxj htj ⊢
            rw [heq] at hxj htj ⊢
            have := simAux_exit_of_open pip rest st htr j
              (simAux_tail_lt pip st st b rest j hj)
              (Nat.lt_of_succ_lt_succ hbj) hxj htj
            simpa [List.get_cons_succ] using this

/-- For a matched entry/exit bar pair of the same trade id, the exit bar
records the entry bar's direction, and the recorded profit is the rounded
signed move between the entry bar's Close and the exit bar's Close,
divided by the pip size. -/
lemma simAux_profit_formula (pip : ℚ) :
    ∀ (bars : List BarIn) (st : SimState) (i j k : ℕ) (d : Direction)
      (hi : i < (simAux pip st bars).length) (hj : j < (simAux pip st bars).length)
      (hbi : i < bars.length) (hbj : j < bars.length),
      ((simAux pip st bars).get ⟨i, hi⟩).entry_signal = some d →
      ((simAux pip st bars).get ⟨i, hi⟩).trade_id = some k →
      ((simAux pip st bars).get ⟨j, hj⟩).exit_signal.isSome = true →
      ((simAux pip st bars).get ⟨j, hj⟩).trade_id = some k →
      ((simAux pip st bars).get ⟨j, hj⟩).exit_signal = some d ∧
      ((simAux pip st bars).get ⟨j, hj⟩).profit =
        some (rnd5 (pdelta (some d)
          (bars.get ⟨j, hbj⟩).close (bars.get ⟨i, hbi⟩).close / pip))
  | [], st, i, j, k, d, hi, _, _, _, _, _, _, _ => by simp [simAux] at hi
  | b :: rest, st, 0, j, k, d, hi, hj, hbi, hbj, hei, hti, hxj, htj => by
      rw [simAux_get_zero] at hei hti
      rcases stepSim_cases pip st b with ⟨h1, h2, heq⟩ | ⟨h1, h2, heq⟩ | ⟨h1, h2, heq⟩ |
        ⟨h1, h2, h3, heq⟩ | ⟨h1, h2, h3, heq⟩
      · -- entry at bar 0; the exit must lie strictly later, in the tail
        cases j with
        | zero =>
            rw [simAux_get_zero, heq] at hxj
            simp at hxj
        | succ j =>
            rw [heq] at hei hti
            simp only [Option.some.injEq] at hti
            subst hti
            rw [simAux_get_succ] at hxj htj ⊢
            rw [heq] at hxj htj ⊢
            have hopen := simAux_exit_of_open pip rest
              ⟨true, b.raw, b.close, st.trade_counter + 1⟩ rfl j
              (simAux_tail_lt pip st _ b rest j hj)
              (Nat.lt_of_succ_lt_succ hbj) hxj htj
            have hraw : b.raw = some d := hei
            rw [hraw] at hopen
            simpa [List.get_cons_succ, hraw] using hopen
      · rw [heq] at hei; simp at hei
      · rw [heq] at hei; simp at hei
      · rw [heq] at hei; simp at hei
      · rw [heq] at hei; simp at hei
  | b :: rest, st, i + 1, 0, k, d, hi, hj, hbi, hbj, hei, hti, hxj, htj => by
      rw [simAux_get_zero] at hxj htj
      rw [simAux_get_succ] at hei hti
      rcases stepSim_cases pip st b with ⟨h1, h2, heq⟩ | ⟨h1, h2, heq⟩ | ⟨h1, h2, heq⟩ |
        ⟨h1, h2, h3, heq⟩ | ⟨h1, h2, h3, heq⟩ <;> rw [heq] at hxj htj
      · simp at hxj
      · simp at hxj
      · have hlb := simAux_entry_tid_lb pip rest _ _ k (List.get_mem _ _ _)
          (by rw [hei]; rfl) hti
        rw [heq] at hlb
        simp at hlb htj
        omega
      · have hlb := simAux_entry_tid_lb pip rest _ _ k (List.get_mem _ _ _)
          (by rw [hei]; rfl) hti
        rw [heq] at hlb
        simp at hlb htj
        omega
      · simp at hxj
  | b :: rest, st, i + 1, j + 1, k, d, hi, hj, hbi, hbj, hei, hti, hxj, htj => by
      rw [simAux_get_succ] at hei hti hxj htj
      have := simAux_profit_formula pip rest _ i j k d _ _
        (Nat.lt_of_succ_lt_succ hbi) (Nat.lt_of_succ_lt_succ hbj) hei hti hxj htj
      simpa [List.get_cons_succ] using this

/-! ## Sign facts about the rounding used for profits -/

lemma roundHalfEven_nonpos (q : ℚ) (h : q ≤ 0) : roundHalfEven q ≤ 0 := by
  have hfle : (⌊q⌋ : ℚ) ≤ q := Int.floor_le q
  have hf0 : ⌊q⌋ ≤ 0 := by
    have h2 : (⌊q⌋ : ℚ) ≤ 0 := le_trans hfle h
    exact_mod_cast h2
  rw [roundHalfEven]
  split_ifs with h1 h2 h3
  · exact hf0
  · have h4 : (⌊q⌋ : ℚ) ≤ -(1 / 2) := by linarith [not_lt.mp h1]
    have h5 : (⌊q⌋ : ℚ) < 0 := lt_of_le_of_lt h4 (by norm_num)
    have h6 : ⌊q⌋ < 0 := by exact_mod_cast h5
    omega
  · exact hf0
  · have h4 : (⌊q⌋ : ℚ) ≤ -(1 / 2) := by linarith [not_lt.mp h1]
    have h5 : (⌊q⌋ : ℚ) < 0 := lt_of_le_of_lt h4 (by norm_num)
    have h6 : ⌊q⌋ < 0 := by exact_mod_cast h5
    omega

lemma roundHalfEven_pos (q : ℚ) (h : 1 / 2 < q) : 1 ≤ roundHalfEven q := by
  have hf0 : 0 ≤ ⌊q⌋ := Int.le_floor.mpr (by push_cast; linarith)
  have hlt : q - ⌊q⌋ < 1 := by linarith [Int.lt_floor_add_one q]
  rw [roundHalfEven]
  split_ifs with h1 h2 h3
  · -- fractional part below 1/2 forces the floor itself above 1/2
    have h4 : (1 : ℚ) / 2 - 1 / 2 < (⌊q⌋ : ℚ) := by linarith
    have h5 : (0 : ℚ) < (⌊q⌋ : ℚ) := by linarith
    have h6 : 0 < ⌊q⌋ := by exact_mod_cast h5
    omega
  · omega
  · -- exact tie: q = ⌊q⌋ + 1/2 > 1/2 forces a positive floor
    have h4 : q - ⌊q⌋ = 1 / 2 := le_antisymm (not_lt.mp h2) (not_lt.mp h1)
    have h5 : (0 : ℚ) < (⌊q⌋ : ℚ) := by linarith
    have h6 : 0 < ⌊q⌋ := by exact_mod_cast h5
    omega
  · omega

lemma rnd5_nonpos (q : ℚ) (h : q ≤ 0) : rnd5 q ≤ 0 := by
  rw [rnd5]
  have h1 : roundHalfEven (q * 100000) ≤ 0 :=
    roundHalfEven_nonpos _ (by nlinarith)
  have h2 : ((roundHalfEven (q * 100000) : ℚ)) ≤ 0 := by exact_mod_cast h1
  by_contra hc
  have h3 : 0 < ((roundHalfEven (q * 100000) : ℚ)) :=
    (div_pos_iff_of_pos_right (by norm_num)).mp (lt_of_not_le hc)
  linarith

lemma rnd5_pos (q : ℚ) (h : 1 / 200000 < q) : 0 < rnd5 q := by
  rw [rnd5]
  have h1 : 1 ≤ roundHalfEven (q * 100000) :=
    roundHalfEven_pos _ (by nlinarith)
  have h2 : (1 : ℚ) ≤ (roundHalfEven (q * 100000) : ℚ) := by exact_mod_cast h1
  exact (div_pos_iff_of_pos_right (by norm_num)).mpr (by linarith)

/-- The recorded profit is strictly positive only if the unrounded signed
move was strictly positive. -/
lemma pos_of_rnd5_pos (q : ℚ) (h : 0 < rnd5 q) : 0 < q := by
  by_contra hq
  exact absurd h (not_lt.mpr (rnd5_nonpos q (not_lt.mp hq)))

/-! ## The recursive smoother satisfies the spec's recurrence -/

lemma ewmAux_length (a : ℚ) :
    ∀ (xs : List ℚ) (p : ℚ), (ewmAux a p xs).length = xs.length
  | [], _ => rfl
  | c :: rest, p => by
      simp only [ewmAux, List.length_cons, ewmAux_length a rest]

lemma ewm_length (a : ℚ) : ∀ (xs : List ℚ), (ewm a xs).length = xs.length
  | [] => rfl
  | c :: rest => by
      simp [ewm, ewmAux_length]

/-- Recurrence of the seeded smoother, phrased on the seed-cons form. -/
lemma cons_ewmAux_rec (a : ℚ) :
    ∀ (xs : List ℚ) (p : ℚ) (i : ℕ)
      (h1 : i + 1 < (p :: ewmAux a p xs).length) (h2 : i < xs.length)
      (h3 : i < (p :: ewmAux a p xs).length),
      (p :: ewmAux a p xs).get ⟨i + 1, h1⟩ =
        xs.get ⟨i, h2⟩ * a + (p :: ewmAux a p xs).get ⟨i, h3⟩ * (1 - a)
  | [], p, i, h1, h2, h3 => by simp at h2
  | c :: rest, p, 0, h1, h2, h3 => by
      simp only [ewmAux]
      rfl
  | c :: rest, p, i + 1, h1, h2, h3 => by
      have key := cons_ewmAux_rec a rest (c * a + p * (1 - a)) i
        (by simp only [ewmAux, List.length_cons] at h1; simpa using Nat.lt_of_succ_lt_succ h1)
        (by simpa using Nat.lt_of_succ_lt_succ h2)
        (by simp only [ewmAux, List.length_cons] at h3; simpa using Nat.lt_of_succ_lt_succ h3)
      simp only [ewmAux]
      rw [show ((p :: (c * a + p * (1 - a)) :: ewmAux a (c * a + p * (1 - a)) rest).get
        ⟨i + 1 + 1, by simpa [ewmAux] using h1⟩ : ℚ) =
          (((c * a + p * (1 - a)) :: ewmAux a (c * a + p * (1 - a)) rest).get
            ⟨i + 1, by simpa [ewmAux] using Nat.lt_of_succ_lt_succ h1⟩) from rfl]
      rw [key]
      rfl

/-- The smoother produced by `ewm` is exactly the spec's seeded recurrence
(spec §4.1 / §8). -/
lemma ewm_specSmoothRec (a : ℚ) (xs : List ℚ) : specSmoothRec a xs (ewm a xs) := by
  cases xs with
  | nil =>
      refine ⟨rfl, ?_, ?_⟩
      · intro hy hx
        simp [ewm] at hy
      · intro i hy hx hy2
        simp [ewm] at hy
  | cons c rest =>
      refine ⟨by simp [ewm, ewmAux_length], ?_, ?_⟩
      · intro hy hx
        rfl
      · intro i hy hx hy2
        simp only [ewm] at hy hy2 ⊢
        rw [cons_ewmAux_rec a rest c i hy (by simpa using Nat.lt_of_succ_lt_succ hx) hy2]
        rfl

/-! ## Indexing the crossover signal stream -/

lemma signalsAux_length :
    ∀ (ps : List (ℚ × ℚ)) (prev : ℚ × ℚ), (signalsAux prev ps).length = ps.length
  | [], _ => rfl
  | p :: rest, prev => by
      simp [signalsAux, signalsAux_length rest]

lemma generate_signals_length :
    ∀ (ps : List (ℚ × ℚ)), (generate_signals ps).length = ps.length
  | [] => rfl
  | p :: rest => by
      simp [generate_signals, signalsAux_length]

/-- Each cell of the tail signal stream compares its own (Close, EMA) pair
with the previous pair of the seed-cons list. -/
lemma signalsAux_get_pair :
    ∀ (rest : List (ℚ × ℚ)) (p0 : ℚ × ℚ) (i : ℕ)
      (h : i < (signalsAux p0 rest).length) (h1 : i < rest.length)
      (h2 : i < (p0 :: rest).length),
      (signalsAux p0 rest).get ⟨i, h⟩ =
        crossSignal (rest.get ⟨i, h1⟩).1 (rest.get ⟨i, h1⟩).2
          ((p0 :: rest).get ⟨i, h2⟩).1 ((p0 :: rest).get ⟨i, h2⟩).2
  | [], _, i, h, h1, h2 => by simp at h1
  | q :: rest2, p0, 0, h, h1, h2 => rfl
  | q :: rest2, p0, i + 1, h, h1, h2 => by
      have key := signalsAux_get_pair rest2 q i
        (by simp only [signalsAux, List.length_cons] at h; simpa using Nat.lt_of_succ_lt_succ h)
        (by simpa using Nat.lt_of_succ_lt_succ h1)
        (by simpa using Nat.lt_of_succ_lt_succ h2)
      exact key

/-- First signal cell is `pd.NA` on any non-empty input. -/
lemma generate_signals_get_zero (ps : List (ℚ × ℚ))
    (h : 0 < (generate_signals ps).length) :
    (generate_signals ps).get ⟨0, h⟩ = none := by
  cases ps with
  | nil => simp [generate_signals] at h
  | cons p rest => rfl

/-- Signal cell `i+1` is the crossover comparison between pair `i+1` and
pair `i`. -/
lemma generate_signals_get_succ (ps : List (ℚ × ℚ)) (i : ℕ)
    (h : i + 1 < (generate_signals ps).length) (h1 : i + 1 < ps.length)
    (h0 : i < ps.length) :
    (generate_signals ps).get ⟨i + 1, h⟩ =
      crossSignal (ps.get ⟨i + 1, h1⟩).1 (ps.get ⟨i + 1, h1⟩).2
        (ps.get ⟨i, h0⟩).1 (ps.get ⟨i, h0⟩).2 := by
  cases ps with
  | nil => simp at h1
  | cons p rest =>
      have key := signalsAux_get_pair rest p i
        (by simp only [generate_signals, List.length_cons] at h; simpa using Nat.lt_of_succ_lt_succ h)
        (by simpa using Nat.lt_of_succ_lt_succ h1) h0
      exact key

lemma crossSignal_eq_long (c t pc pt : ℚ) :
    crossSignal c t pc pt = some Direction.long ↔ (t < c ∧ pc ≤ pt) := by
  rw [crossSignal]
  split_ifs with h1 h2
  · simp [h1]
  · simp only [Option.some.injEq]
    constructor
    · intro hd
      exact absurd hd (by simp)
    · intro hb
      exact absurd hb h1
  · simp [h1]

lemma crossSignal_eq_short (c t pc pt : ℚ) :
    crossSignal c t pc pt = some Direction.short ↔ (c < t ∧ pt ≤ pc) := by
  rw [crossSignal]
  split_ifs with h1 h2
  · simp only [Option.some.injEq]
    constructor
    · intro hd
      exact absurd hd (by simp)
    · intro hb
      exact absurd hb.1 (lt_asymm h1.1)
  · simp [h2]
  · simp [h2]

lemma crossSignal_eq_none_of_eq (c t pc pt : ℚ) (h : c = t) :
    crossSignal c t pc pt = none := by
  rw [crossSignal, h]
  simp [lt_irrefl]

lemma crossSignal_eq_none_of_not (c t pc pt : ℚ)
    (h1 : ¬(t < c ∧ pc ≤ pt)) (h2 : ¬(c < t ∧ pt ≤ pc)) :
    crossSignal c t pc pt = none := by
  rw [crossSignal, if_neg h1, if_neg h2]

/-! ## Claim theorems -/

/-- C1: on the Close sequence [10, 12, 11, 9] with trend period 2 (so
smoothing factor 2/3) and pipSize 1, the full pipeline — trend smoothing,
crossover detection, MACD computation and trade simulation — yields
per-bar tradeId [none, 1, 1, none], exit reason
[none, none, ema_cross (spec: CrossReversal), none], profitPips
[none, none, -1, none], inPosition [false, true, true, false], and an
entry signal Long on bar 1 (entry price Close[1] = 12); the trade is
closed on bar 2 by the cross-reversal exit with profit
round((11 - 12) / 1, 5) = -1. -/
theorem pipeline_scenario_C1 :
    (run_pipeline 2 55 89 8 1 [10, 12, 11, 9]).toOption.map
        (fun rows => rows.map Row.trade_id) =
      some [none, some 1, some 1, none] ∧
    (run_pipeline 2 55 89 8 1 [10, 12, 11, 9]).toOption.map
        (fun rows => rows.map Row.exit_type) =
      some [none, none, some ExitType.ema_cross, none] ∧
    (run_pipeline 2 55 89 8 1 [10, 12, 11, 9]).toOption.map
        (fun rows => rows.map Row.profit) =
      some [none, none, some (-1 : ℚ), none] ∧
    (run_pipeline 2 55 89 8 1 [10, 12, 11, 9]).toOption.map
        (fun rows => rows.map Row.in_position) =
      some [false, true, true, false] ∧
    (run_pipeline 2 55 89 8 1 [10, 12, 11, 9]).toOption.map
        (fun rows => rows.map Row.entry_signal) =
      some [none, some Direction.long, none, none] := by
  refine ⟨by decide, by decide, by decide, by decide, by decide⟩

/-- C5: for every zipped (Close, trendValue) series, the crossover event at
index 0 is none; for i ≥ 1 the event is Long exactly when
Close[i] > trendValue[i] and Close[i-1] ≤ trendValue[i-1], Short exactly
when Close[i] < trendValue[i] and Close[i-1] ≥ trendValue[i-1], and none
when neither condition holds; equality Close[i] = trendValue[i] never
itself produces a signal. -/
theorem cross_event_spec_C5 (ps : List (ℚ × ℚ)) :
    (∀ (h : 0 < (generate_signals ps).length),
        (generate_signals ps).get ⟨0, h⟩ = none) ∧
    (∀ (i : ℕ) (h : i + 1 < (generate_signals ps).length)
        (h1 : i + 1 < ps.length) (h0 : i < ps.length),
      ((generate_signals ps).get ⟨i + 1, h⟩ = some Direction.long ↔
        ((ps.get ⟨i + 1, h1⟩).2 < (ps.get ⟨i + 1, h1⟩).1 ∧
          (ps.get ⟨i, h0⟩).1 ≤ (ps.get ⟨i, h0⟩).2)) ∧
      ((generate_signals ps).get ⟨i + 1, h⟩ = some Direction.short ↔
        ((ps.get ⟨i + 1, h1⟩).1 < (ps.get ⟨i + 1, h1⟩).2 ∧
          (ps.get ⟨i, h0⟩).2 ≤ (ps.get ⟨i, h0⟩).1)) ∧
      (¬((ps.get ⟨i + 1, h1⟩).2 < (ps.get ⟨i + 1, h1⟩).1 ∧
          (ps.get ⟨i, h0⟩).1 ≤ (ps.get ⟨i, h0⟩).2) →
        ¬((ps.get ⟨i + 1, h1⟩).1 < (ps.get ⟨i + 1, h1⟩).2 ∧
          (ps.get ⟨i, h0⟩).2 ≤ (ps.get ⟨i, h0⟩).1) →
        (generate_signals ps).get ⟨i + 1, h⟩ = none) ∧
      ((ps.get ⟨i + 1, h1⟩).1 = (ps.get ⟨i + 1, h1⟩).2 →
        (generate_signals ps).get ⟨i + 1, h⟩ = none)) := by
  refine ⟨generate_signals_get_zero ps, ?_⟩
  intro i h h1 h0
  rw [generate_signals_get_succ ps i h h1 h0]
  exact ⟨crossSignal_eq_long _ _ _ _, crossSignal_eq_short _ _ _ _,
    fun hA hB => crossSignal_eq_none_of_not _ _ _ _ hA hB,
    fun he => crossSignal_eq_none_of_eq _ _ _ _ he⟩

/-- Witness for C5 on the spec's scenario prefix: the first cell is none,
and bar 1 of Close [10, 12] with trend [10, 34/3] is a Long cross. -/
theorem cross_event_spec_C5_witness :
    (generate_signals [((10 : ℚ), (10 : ℚ)), ((12 : ℚ), 34 / 3)]).get
        ⟨0, by decide⟩ = none ∧
    (generate_signals [((10 : ℚ), (10 : ℚ)), ((12 : ℚ), 34 / 3)]).get
        ⟨1, by decide⟩ = some Direction.long :=
  ⟨(cross_event_spec_C5 _).1 (by decide),
   ((cross_event_spec_C5 [((10 : ℚ), (10 : ℚ)), ((12 : ℚ), 34 / 3)]).2 0
      (by decide) (by decide) (by decide)).1.mpr (by norm_num)⟩

/-- C6: for every period P ≥ 1, `calculate_ema` succeeds and returns the
seeded recursive smoother with factor 2/(P+1), which satisfies
trendValue[0] = Close[0] and
trendValue[i] = Close[i]·(2/(P+1)) + trendValue[i-1]·(1 - 2/(P+1)); and
`calculate_macd`'s fast line, slow line and signal line are that same
seeded smoother applied to Close, Close, and the MACD line respectively. -/
theorem trend_smoother_C6 (P : ℤ) (hP : 1 ≤ P) (closes : List ℚ) (f s g : ℤ) :
    calculate_ema P closes = Except.ok (ewm (2 / ((P : ℚ) + 1)) closes) ∧
    specSmoothRec (2 / ((P : ℚ) + 1)) closes (ewm (2 / ((P : ℚ) + 1)) closes) ∧
    (∀ m sig hist, calculate_macd f s g closes = Except.ok (m, sig, hist) →
      m = listSub (ewm (2 / ((f : ℚ) + 1)) closes) (ewm (2 / ((s : ℚ) + 1)) closes) ∧
      sig = ewm (2 / ((g : ℚ) + 1)) m ∧
      hist = listSub m sig ∧
      specSmoothRec (2 / ((f : ℚ) + 1)) closes (ewm (2 / ((f : ℚ) + 1)) closes) ∧
      specSmoothRec (2 / ((s : ℚ) + 1)) closes (ewm (2 / ((s : ℚ) + 1)) closes) ∧
      specSmoothRec (2 / ((g : ℚ) + 1)) m sig) := by
  refine ⟨?_, ewm_specSmoothRec _ _, ?_⟩
  · rw [calculate_ema, if_neg (by omega)]
  · intro m sig hist hok
    rw [calculate_macd] at hok
    by_cases hg : f < 1 ∨ s < 1 ∨ g < 1
    · rw [if_pos hg] at hok
      exact absurd hok (by simp)
    · rw [if_neg hg] at hok
      simp only [Except.ok.injEq, Prod.mk.injEq] at hok
      obtain ⟨hm, hsig, hhist⟩ := hok
      subst hm
      subst hsig
      subst hhist
      exact ⟨rfl, rfl, rfl, ewm_specSmoothRec _ _, ewm_specSmoothRec _ _,
        ewm_specSmoothRec _ _⟩

/-- Witness for C6 at P = 2, Close = [10, 12], MACD periods 1/1/1. -/
theorem trend_smoother_C6_witness :
    calculate_ema 2 [(10 : ℚ), 12] =
      Except.ok (ewm (2 / (((2 : ℤ) : ℚ) + 1)) [(10 : ℚ), 12]) :=
  (trend_smoother_C6 2 (by decide) [(10 : ℚ), 12] 1 1 1).1

/-- C9 counterexample: an empty input series is not rejected by the trend
stage — `calculate_ema` (with the default period 89), the signal stage and
the whole pipeline all succeed on it with empty outputs, so the claim that
the stage fails with a validation error on an empty series is false. -/
theorem empty_series_ok_C9 :
    calculate_ema 89 ([] : List ℚ) = Except.ok [] ∧
    generate_signals ([] : List (ℚ × ℚ)) = [] ∧
    run_pipeline 89 55 89 8 (1 / 10000) ([] : List ℚ) = Except.ok [] :=
  ⟨rfl, rfl, rfl⟩

/-- C9 (amended): the trend stage fails (with pandas' span validation
error) exactly when the period is below 1; in that case no trend output is
produced. An empty series is not rejected. -/
theorem validation_amended_C9 (P : ℤ) (closes : List ℚ) :
    (∃ e, calculate_ema P closes = Except.error e) ↔ P < 1 := by
  constructor
  · rintro ⟨e, he⟩
    by_contra hP
    rw [calculate_ema, if_neg hP] at he
    exact absurd he (by simp)
  · intro hP
    exact ⟨_, by rw [calculate_ema, if_pos hP]⟩

/-- Witness for the amended C9 at period 0 and an empty series. -/
theorem validation_amended_C9_witness :
    (∃ e, calculate_ema 0 ([] : List ℚ) = Except.error e) ↔ (0 : ℤ) < 1 :=
  validation_amended_C9 0 []

lemma entryIds_simulate (pip : ℚ) (bars : List BarIn) :
    entryIds (simulate_trades pip bars) = entryIds (simAux pip initState bars) := by
  rw [simulate_trades_eq_map, entryIds, entryIds, List.filterMap_map]
  rfl

/-- C2: after the simulation pass (both cleanup assignments, the second of
which wins), a bar's final inPosition flag is true exactly when the bar
carries a tradeId — i.e. it lies in some trade's recorded interval,
including that trade's own exit bar, and up to the last bar for a trade
still open at the end. -/
theorem in_position_iff_trade_id_C2 (pip : ℚ) (bars : List BarIn) (i : ℕ)
    (h : i < (simulate_trades pip bars).length) :
    ((simulate_trades pip bars).get ⟨i, h⟩).in_position = true ↔
      (((simulate_trades pip bars).get ⟨i, h⟩).trade_id).isSome = true := by
  have h2 : i < (simAux pip initState bars).length := by
    rw [simAux_length]
    rw [simulate_trades_length] at h
    exact h
  rw [simulate_trades_get pip bars i h h2]
  obtain ⟨st2, b, hb⟩ :=
    simAux_mem pip bars initState ((simAux pip initState bars).get ⟨i, h2⟩)
      (List.get_mem _ _ _)
  rw [hb]
  rcases stepSim_cases pip st2 b with ⟨h1, hx, heq⟩ | ⟨h1, hx, heq⟩ | ⟨h1, hx, heq⟩ |
    ⟨h1, hx, h3, heq⟩ | ⟨h1, hx, h3, heq⟩ <;> rw [heq] <;>
    simp [final_in_position] <;> cases st2.position <;> simp

/-- Witness for C2 on a one-bar run that opens a trade. -/
theorem in_position_iff_trade_id_C2_witness :
    ((simulate_trades 1 [⟨10, some Direction.long, 0⟩]).get
        ⟨0, by decide⟩).in_position = true ↔
      (((simulate_trades 1 [⟨10, some Direction.long, 0⟩]).get
        ⟨0, by decide⟩).trade_id).isSome = true :=
  in_position_iff_trade_id_C2 1 [⟨10, some Direction.long, 0⟩] 0 (by decide)

/-- C3: while a position is open, the two exit triggers are checked in
strict priority order with at most one exit recorded per bar: when the
opposite crossover signal and the adverse histogram condition both hold on
the same bar, the exit is recorded as ema_cross (CrossReversal), never as
macd (MomentumFlip); a macd exit is recorded only on bars where the
cross-reversal trigger does not fire (and the adverse histogram condition
does hold). -/
theorem exit_priority_C3 (pip : ℚ) (st : SimState) (b : BarIn)
    (hopen : st.in_trade = true) :
    ((b.raw.isSome = true ∧ b.raw ≠ st.position ∧
        adverse st.position b.hist = true) →
      ((stepSim pip st b).2.exit_type = some ExitType.ema_cross ∧
        ¬(stepSim pip st b).2.exit_type = some ExitType.macd)) ∧
    ((stepSim pip st b).2.exit_type = some ExitType.macd →
      (¬(b.raw.isSome = true ∧ b.raw ≠ st.position) ∧
        adverse st.position b.hist = true)) := by
  rcases stepSim_cases pip st b with ⟨h1, hx, heq⟩ | ⟨h1, hx, heq⟩ | ⟨h1, hc, heq⟩ |
    ⟨h1, hc, ha, heq⟩ | ⟨h1, hc, ha, heq⟩
  · rw [h1] at hopen
    exact absurd hopen (by simp)
  · rw [h1] at hopen
    exact absurd hopen (by simp)
  · rw [heq]
    exact ⟨fun _ => ⟨rfl, by simp⟩, fun hmacd => absurd hmacd (by simp)⟩
  · rw [heq]
    exact ⟨fun hboth => absurd ⟨hboth.1, hboth.2.1⟩ hc, fun _ => ⟨hc, ha⟩⟩
  · rw [heq]
    exact ⟨fun hboth => absurd ⟨hboth.1, hboth.2.1⟩ hc,
      fun hmacd => absurd hmacd (by simp)⟩

/-- Witness for C3: a bar where both the opposite signal and the adverse
histogram fire against an open Long exits via ema_cross. -/
theorem exit_priority_C3_witness :
    (stepSim 1 ⟨true, some Direction.long, 10, 1⟩
      ⟨9, some Direction.short, -1⟩).2.exit_type = some ExitType.ema_cross :=
  ((exit_priority_C3 1 ⟨true, some Direction.long, 10, 1⟩
      ⟨9, some Direction.short, -1⟩ rfl).1 (by decide)).1

/-- C4: a crossover signal arriving while a position is open is consumed
only as an exit trigger and never opens a trade on that same bar: the
entry bar of trade k+1 lies strictly after the exit bar of trade k, for
every input sequence and pip size. -/
theorem no_same_bar_reentry_C4 (pip : ℚ) (bars : List BarIn) (i j k : ℕ)
    (hi : i < (simulate_trades pip bars).length)
    (hj : j < (simulate_trades pip bars).length)
    (hxi : ((simulate_trades pip bars).get ⟨i, hi⟩).exit_signal.isSome = true)
    (hti : ((simulate_trades pip bars).get ⟨i, hi⟩).trade_id = some k)
    (hej : ((simulate_trades pip bars).get ⟨j, hj⟩).entry_signal.isSome = true)
    (htj : ((simulate_trades pip bars).get ⟨j, hj⟩).trade_id = some (k + 1)) :
    i < j := by
  have hi2 : i < (simAux pip initState bars).length := by
    rw [simAux_length]
    rw [simulate_trades_length] at hi
    exact hi
  have hj2 : j < (simAux pip initState bars).length := by
    rw [simAux_length]
    rw [simulate_trades_length] at hj
    exact hj
  rw [simulate_trades_get pip bars i hi hi2] at hxi hti
  rw [simulate_trades_get pip bars j hj hj2] at hej htj
  by_contra hcon
  have hmono := simAux_tid_mono pip bars initState j i (k + 1) k hj2 hi2
    (Nat.le_of_not_lt hcon) htj hti
  omega

/-- Witness for C4: trade 1 exits on bar 1, trade 2 enters on bar 2. -/
theorem no_same_bar_reentry_C4_witness : (1 : ℕ) < 2 :=
  no_same_bar_reentry_C4 1
    [⟨10, some Direction.long, 0⟩, ⟨11, some Direction.short, 0⟩,
      ⟨12, some Direction.long, 0⟩]
    1 2 1 (by decide) (by decide) (by decide) (by decide) (by decide) (by decide)

/-- C7 counterexample: with pipSize 1, a Long trade entered at price 0 and
closed at price 1/10000000 has a favorable exit (exitPrice above
entryPrice) yet its recorded profitPips is round(10⁻⁷, 5) = 0, which is
not strictly positive — so "profitPips > 0 iff the exit was favorable" is
false as stated. -/
theorem profit_rounding_cex_C7 :
    (simulate_trades 1 [⟨0, some Direction.long, 0⟩,
        ⟨1 / 10000000, some Direction.short, 0⟩]).map Row.profit =
      [none, some 0] ∧
    (simulate_trades 1 [⟨0, some Direction.long, 0⟩,
        ⟨1 / 10000000, some Direction.short, 0⟩]).map Row.entry_signal =
      [some Direction.long, none] ∧
    (simulate_trades 1 [⟨0, some Direction.long, 0⟩,
        ⟨1 / 10000000, some Direction.short, 0⟩]).map Row.exit_signal =
      [none, some Direction.long] ∧
    (simulate_trades 1 [⟨0, some Direction.long, 0⟩,
        ⟨1 / 10000000, some Direction.short, 0⟩]).map Row.trade_id =
      [some 1, some 1] ∧
    (0 : ℚ) < 1 / 10000000 :=
  ⟨by decide, by decide, by decide, by decide, by decide⟩

/-- C7 (amended): for every closed trade with pipSize > 0, the recorded
profitPips is round(Δ/pipSize, 5) where Δ is the signed move
((exit − entry) for Long, (entry − exit) for Short); profitPips > 0
implies the move was favorable (Δ > 0), and a favorable move exceeding
half of one rounding unit (Δ/pipSize > 1/200000) yields profitPips > 0;
a smaller favorable move can round to a profitPips of 0, so the exact
"iff" of the original claim does not hold. -/
theorem profit_sign_amended_C7 (pip : ℚ) (hpip : 0 < pip) (bars : List BarIn)
    (i j k : ℕ) (d : Direction)
    (hi : i < (simulate_trades pip bars).length)
    (hj : j < (simulate_trades pip bars).length)
    (hbi : i < bars.length) (hbj : j < bars.length)
    (hei : ((simulate_trades pip bars).get ⟨i, hi⟩).entry_signal = some d)
    (hti : ((simulate_trades pip bars).get ⟨i, hi⟩).trade_id = some k)
    (hxj : ((simulate_trades pip bars).get ⟨j, hj⟩).exit_signal.isSome = true)
    (htj : ((simulate_trades pip bars).get ⟨j, hj⟩).trade_id = some k) :
    ((simulate_trades pip bars).get ⟨j, hj⟩).exit_signal = some d ∧
    ((simulate_trades pip bars).get ⟨j, hj⟩).profit =
      some (rnd5 (pdelta (some d)
        (bars.get ⟨j, hbj⟩).close (bars.get ⟨i, hbi⟩).close / pip)) ∧
    (0 < rnd5 (pdelta (some d)
        (bars.get ⟨j, hbj⟩).close (bars.get ⟨i, hbi⟩).close / pip) →
      0 < pdelta (some d) (bars.get ⟨j, hbj⟩).close (bars.get ⟨i, hbi⟩).close) ∧
    (1 / 200000 < pdelta (some d)
        (bars.get ⟨j, hbj⟩).close (bars.get ⟨i, hbi⟩).close / pip →
      0 < rnd5 (pdelta (some d)
        (bars.get ⟨j, hbj⟩).close (bars.get ⟨i, hbi⟩).close / pip)) := by
  have hi2 : i < (simAux pip initState bars).length := by
    rw [simAux_length]
    rw [simulate_trades_length] at hi
    exact hi
  have hj2 : j < (simAux pip initState bars).length := by
    rw [simAux_length]
    rw [simulate_trades_length] at hj
    exact hj
  rw [simulate_trades_get pip bars i hi hi2] at hei hti
  rw [simulate_trades_get pip bars j hj hj2] at hxj htj
  have hq := simAux_profit_formula pip bars initState i j k d hi2 hj2 hbi hbj
    hei hti hxj htj
  refine ⟨?_, ?_, ?_, fun hm => rnd5_pos _ hm⟩
  · rw [simulate_trades_get pip bars j hj hj2]
    exact hq.1
  · rw [simulate_trades_get pip bars j hj hj2]
    exact hq.2
  · intro hpos
    have h1 : 0 < pdelta (some d)
        (bars.get ⟨j, hbj⟩).close (bars.get ⟨i, hbi⟩).close / pip :=
      pos_of_rnd5_pos _ hpos
    exact (div_pos_iff_of_pos_right hpip).mp h1

/-- Witness for the amended C7: a Long trade entered at 10 and exited at
12 with pipSize 1 records a strictly positive profit. -/
theorem profit_sign_amended_C7_witness :
    0 < rnd5 (pdelta (some Direction.long) 12 10 / 1) :=
  (profit_sign_amended_C7 1 (by decide)
    [⟨10, some Direction.long, 0⟩, ⟨12, some Direction.short, 0⟩]
    0 1 1 Direction.long (by decide) (by decide) (by decide) (by decide)
    (by decide) (by decide) (by decide) (by decide)).2.2.2 (by decide)

/-- C8: at most one trade is recorded per bar (a bar carries at most one
trade id); the set of bars carrying a given trade id is a contiguous
interval, so intervals of distinct trade ids are disjoint; recorded trade
ids never decrease along the bars; and the ids carried by entry bars are
exactly the consecutive integers 1, 2, 3, … in entry order. -/
theorem single_position_C8 (pip : ℚ) (bars : List BarIn) :
    (∀ (i : ℕ) (h : i < (simulate_trades pip bars).length) (k k2 : ℕ),
      ((simulate_trades pip bars).get ⟨i, h⟩).trade_id = some k →
      ((simulate_trades pip bars).get ⟨i, h⟩).trade_id = some k2 → k = k2) ∧
    (∀ (i m j k : ℕ) (hi : i < (simulate_trades pip bars).length)
        (hm : m < (simulate_trades pip bars).length)
        (hj : j < (simulate_trades pip bars).length),
      i ≤ m → m ≤ j →
      ((simulate_trades pip bars).get ⟨i, hi⟩).trade_id = some k →
      ((simulate_trades pip bars).get ⟨j, hj⟩).trade_id = some k →
      ((simulate_trades pip bars).get ⟨m, hm⟩).trade_id = some k) ∧
    (∀ (i j a c : ℕ) (hi : i < (simulate_trades pip bars).length)
        (hj : j < (simulate_trades pip bars).length),
      i ≤ j →
      ((simulate_trades pip bars).get ⟨i, hi⟩).trade_id = some a →
      ((simulate_trades pip bars).get ⟨j, hj⟩).trade_id = some c → a ≤ c) ∧
    (∃ n, entryIds (simulate_trades pip bars) = List.range' 1 n) := by
  refine ⟨?_, ?_, ?_, ?_⟩
  · intro i h k k2 hk hk2
    rw [hk] at hk2
    exact Option.some_injective _ hk2
  · intro i m j k hi hm hj him hmj hti htj
    have hi2 : i < (simAux pip initState bars).length := by
      rw [simAux_length]
      rw [simulate_trades_length] at hi
      exact hi
    have hm2 : m < (simAux pip initState bars).length := by
      rw [simAux_length]
      rw [simulate_trades_length] at hm
      exact hm
    have hj2 : j < (simAux pip initState bars).length := by
      rw [simAux_length]
      rw [simulate_trades_length] at hj
      exact hj
    rw [simulate_trades_get pip bars i hi hi2] at hti
    rw [simulate_trades_get pip bars j hj hj2] at htj
    rw [simulate_trades_get pip bars m hm hm2]
    exact simAux_tid_interval pip bars initState i m j k hi2 hm2 hj2
      him hmj hti htj
  · intro i j a c hi hj hij hta htc
    have hi2 : i < (simAux pip initState bars).length := by
      rw [simAux_length]
      rw [simulate_trades_length] at hi
      exact hi
    have hj2 : j < (simAux pip initState bars).length := by
      rw [simAux_length]
      rw [simulate_trades_length] at hj
      exact hj
    rw [simulate_trades_get pip bars i hi hi2] at hta
    rw [simulate_trades_get pip bars j hj hj2] at htc
    exact simAux_tid_mono pip bars initState i j a c hi2 hj2 hij hta htc
  · obtain ⟨n, hn⟩ := simAux_entryIds pip bars initState
    exact ⟨n, by rw [entryIds_simulate]; exact hn⟩

/-- Witness for C8: a trade open across bars 0-2 marks the middle bar with
the same id. -/
theorem single_position_C8_witness :
    ((simulate_trades 1 [⟨10, some Direction.long, 0⟩, ⟨10, none, 0⟩,
        ⟨10, none, 0⟩]).get ⟨1, by decide⟩).trade_id = some 1 :=
  (single_position_C8 1 [⟨10, some Direction.long, 0⟩, ⟨10, none, 0⟩,
      ⟨10, none, 0⟩]).2.1 0 1 2 1 (by decide) (by decide) (by decide)
    (by decide) (by decide) (by decide) (by decide)

/-- C10: the bar on which a trade is opened records no exit fields — even
when the adverse histogram condition already holds on that bar — and every
closed trade's exit bar lies strictly after its entry bar (no same-bar
entry-and-exit). -/
theorem entry_before_exit_C10 (pip : ℚ) (bars : List BarIn) :
    (∀ (i : ℕ) (h : i < (simulate_trades pip bars).length),
      ((simulate_trades pip bars).get ⟨i, h⟩).entry_signal.isSome = true →
      ((simulate_trades pip bars).get ⟨i, h⟩).exit_type = none ∧
      ((simulate_trades pip bars).get ⟨i, h⟩).exit_signal = none ∧
      ((simulate_trades pip bars).get ⟨i, h⟩).profit = none) ∧
    (∀ (i j k : ℕ) (hi : i < (simulate_trades pip bars).length)
        (hj : j < (simulate_trades pip bars).length),
      ((simulate_trades pip bars).get ⟨i, hi⟩).entry_signal.isSome = true →
      ((simulate_trades pip bars).get ⟨i, hi⟩).trade_id = some k →
      ((simulate_trades pip bars).get ⟨j, hj⟩).exit_signal.isSome = true →
      ((simulate_trades pip bars).get ⟨j, hj⟩).trade_id = some k →
      i < j) := by
  constructor
  · intro i h hent
    have h2 : i < (simAux pip initState bars).length := by
      rw [simAux_length]
      rw [simulate_trades_length] at h
      exact h
    rw [simulate_trades_get pip bars i h h2] at hent ⊢
    obtain ⟨st2, b, hb⟩ :=
      simAux_mem pip bars initState ((simAux pip initState bars).get ⟨i, h2⟩)
        (List.get_mem _ _ _)
    rw [hb] at hent ⊢
    rcases stepSim_cases pip st2 b with ⟨h1, hx, heq⟩ | ⟨h1, hx, heq⟩ |
      ⟨h1, hx, heq⟩ | ⟨h1, hx, h3, heq⟩ | ⟨h1, hx, h3, heq⟩ <;>
      rw [heq] at hent ⊢
    · exact ⟨rfl, rfl, rfl⟩
    · simp at hent
    · simp at hent
    · simp at hent
    · simp at hent
  · intro i j k hi hj hei hti hxj htj
    have hi2 : i < (simAux pip initState bars).length := by
      rw [simAux_length]
      rw [simulate_trades_length] at hi
      exact hi
    have hj2 : j < (simAux pip initState bars).length := by
      rw [simAux_length]
      rw [simulate_trades_length] at hj
      exact hj
    rw [simulate_trades_get pip bars i hi hi2] at hei hti
    rw [simulate_trades_get pip bars j hj hj2] at hxj htj
    exact simAux_entry_lt_exit pip bars initState i j k hi2 hj2 hei hti hxj htj

/-- Witness for C10: entry at bar 0 with an already-adverse histogram still
records no exit there; the exit lands on bar 1. -/
theorem entry_before_exit_C10_witness :
    ((simulate_trades 1 [⟨10, some Direction.long, -5⟩,
        ⟨11, some Direction.short, 0⟩]).get ⟨0, by decide⟩).exit_type = none ∧
    (0 : ℕ) < 1 :=
  ⟨((entry_before_exit_C10 1 [⟨10, some Direction.long, -5⟩,
      ⟨11, some Direction.short, 0⟩]).1 0 (by decide) (by decide)).1,
   (entry_before_exit_C10 1 [⟨10, some Direction.long, -5⟩,
      ⟨11, some Direction.short, 0⟩]).2 0 1 1 (by decide) (by decide)
     (by decide) (by decide) (by decide) (by decide)⟩

end MaxAlgos
